import Mathlib

/-!
Verification of the EMD schema layer (`ncempy/io/emd.py`) against its
specification.  The HDF5 container store is modelled as a tree of groups and
datasets; every operation below is a direct translation of the corresponding
Python function of the source file.
-/

namespace EMD

/-- An attribute value stored in the container: an integer, a byte string, or
a length-1 array of byte strings (the two encodings of `name`/`units`
accepted by `get_emddims`). -/
inductive AttrValue : Type where
  | int (n : Int)
  | str (s : String)
  | strArr (ss : List String)
  deriving DecidableEq, Repr

/-- Attributes of a group or dataset, in insertion order. -/
abbrev Attrs := List (String × AttrValue)

/-- A node of the HDF5 hierarchy: a dataset (shape, row-major values,
attributes) or a group (attributes and named children in order). -/
inductive HTree : Type where
  | dset (shape : List Nat) (vals : List ℚ) (attrs : Attrs)
  | group (attrs : Attrs) (children : List (String × HTree))
  deriving Repr

/-- `attrs[key]` lookup (first binding wins; h5py attribute names are
unique, faithfully modelled by well-formed states). -/
def lookupAttr : Attrs → String → Option AttrValue
  | [], _ => none
  | (k, v) :: rest, key => if k = key then some v else lookupAttr rest key

/-- Attributes of a node. -/
def nodeAttrs : HTree → Attrs
  | .dset _ _ a => a
  | .group a _ => a

/-- `'emd_group_type' in item.attrs and item.attrs['emd_group_type'] == 1`. -/
def hasEmdType (a : Attrs) : Bool :=
  match lookupAttr a "emd_group_type" with
  | some v => v = AttrValue.int 1
  | none => false

/-- The recursive worker `proc_group` of `fileEMD.find_emdgroups`: for each
child of the current group, in order, if the child is a group it is tested
(and its relative path appended to the result) before its own children are
visited; datasets are skipped.  The group `proc_group` is called on is never
itself tested. -/
def procGroup : List (String × HTree) → List (List String)
  | [] => []
  | (_, .dset _ _ _) :: rest => procGroup rest
  | (n, .group a c) :: rest =>
      (if hasEmdType a then [[n]] else []) ++
        (procGroup c).map (fun p => n :: p) ++ procGroup rest

/-- `fileEMD.find_emdgroups(parent)`: relative paths, in traversal order, of
the subgroups below `parent` carrying attribute `emd_group_type == 1`. -/
def find_emdgroups : HTree → List (List String)
  | .dset _ _ _ => []
  | .group _ c => procGroup c

/-- All subgroups strictly below a group, as (relative path, attributes)
pairs, in depth-first pre-order: each group before its own children, and a
whole subtree before later siblings.  This is the traversal order of
`procGroup`. -/
def preorderGroups : List (String × HTree) → List (List String × Attrs)
  | [] => []
  | (_, .dset _ _ _) :: rest => preorderGroups rest
  | (n, .group a c) :: rest =>
      ([n], a) :: ((preorderGroups c).map (fun e => (n :: e.1, e.2)) ++
        preorderGroups rest)

/-- `group[name]` child lookup (first binding; names are unique in a
well-formed state). -/
def lookupChild : List (String × HTree) → String → Option HTree
  | [], _ => none
  | (k, v) :: rest, key => if k = key then some v else lookupChild rest key

/-- Walk an absolute path (list of component names) down from the root. -/
def lookupPath : HTree → List String → Option HTree
  | t, [] => some t
  | .group _ c, n :: rest =>
      match lookupChild c n with
      | some t => lookupPath t rest
      | none => none
  | .dset _ _ _, _ :: _ => none

/-- `del parent[name]`: remove the binding for `name`. -/
def delChild : List (String × HTree) → String → List (String × HTree)
  | [], _ => []
  | (k, v) :: rest, key =>
      if k = key then delChild rest key else (k, v) :: delChild rest key

/-- Replace the subtree bound to `name` (used to push an update back up the
path). -/
def replaceChild : List (String × HTree) → String → HTree → List (String × HTree)
  | [], _, _ => []
  | (k, v) :: rest, key, t =>
      if k = key then (k, t) :: rest else (k, v) :: replaceChild rest key t

/-- Apply `f` to the children of the group at `path`; `none` when `path`
does not lead to a group. -/
def modifyChildrenAt (t : HTree) (path : List String)
    (f : List (String × HTree) → List (String × HTree)) : Option HTree :=
  match t, path with
  | .group a c, [] => some (.group a (f c))
  | .group a c, n :: rest =>
      match lookupChild c n with
      | some u =>
          match modifyChildrenAt u rest f with
          | some u' => some (.group a (replaceChild c n u'))
          | none => none
      | none => none
  | .dset _ _ _, _ => none

/-- `attrs[key] = v`: h5py overwrites an existing attribute in place, else
appends a new one. -/
def setAttr : Attrs → String → AttrValue → Attrs
  | [], key, v => [(key, v)]
  | (k, w) :: rest, key, v =>
      if k = key then (k, v) :: rest else (k, w) :: setAttr rest key v

/-- The absolute HDF5 name of the object at `path` (`h5py`'s `group.name`
is the `'/'`-joined path from the root). -/
def nameOf (path : List String) : String :=
  "/" ++ String.intercalate "/" path

/-- Well-formedness of a forest of children: within every group of the
forest the child names are distinct (h5py guarantees this for a real
file). -/
def wfChildren : List (String × HTree) → Bool
  | [] => true
  | (_, .dset _ _ _) :: rest => wfChildren rest
  | (_, .group _ c) :: rest =>
      decide ((c.map Prod.fst).Nodup) && wfChildren c && wfChildren rest

/-- Well-formedness of the model: within every group the child names are
distinct. -/
def wfNames : HTree → Bool
  | .dset _ _ _ => true
  | .group _ c => decide ((c.map Prod.fst).Nodup) && wfChildren c

/-! ## Layout policy: `_get_dset_string` of the two classes -/

/-- Which class the store was opened with. -/
inductive DsetPolicy : Type where
  | v02
  | v05
  deriving DecidableEq, Repr

/-- `fileEMD._get_dset_string`: all dset names are `'data'` for v0.2. -/
def get_dset_string_v02 : List String → Except String String :=
  fun _ => .ok "data"

/-- `fileEMD_v05._get_dset_string`: `parent_name = group.name.split('/')[-2]`,
then the fixed mapping, else `ValueError('dset name not supported')`.  The
split of an absolute name `/a/b/...` is the empty string followed by the
path components, modelled directly at the list level. -/
def get_dset_string_v05 (path : List String) : Except String String :=
  let nameSplit : List String := "" :: path
  let parent_name := nameSplit.getD (nameSplit.length - 2) ""
  if parent_name = "datacubes" then .ok "datacube"
  else if parent_name = "diffractionslices" then .ok "diffractionslice"
  else if parent_name = "pointlistarrayss" then .ok "pointlistarray"
  else if parent_name = "pointlists" then .ok "pointlist"
  else if parent_name = "realslices" then .ok "realslice"
  else .error "dset name not supported"

/-- Dynamic dispatch of `self._get_dset_string(group)`. -/
def get_dset_string : DsetPolicy → List String → Except String String
  | .v02, path => get_dset_string_v02 path
  | .v05, path => get_dset_string_v05 path

/-! ## Read side: `get_emddims` / `get_emdgroup` -/

/-- A `(vector, name, units)` dim triple. -/
structure DimTriple : Type where
  values : List ℚ
  name : String
  units : String
  deriving DecidableEq, Repr

/-- An in-memory numpy array: shape plus row-major values. -/
structure EmdArray : Type where
  shape : List Nat
  vals : List ℚ
  deriving DecidableEq, Repr

/-- Normalize a `name`/`units` attribute: a scalar byte string, or a
length-1 array of byte strings whose first element is taken.  A missing
key, an empty array, or a non-string value raises inside the enclosing
`try` (modelled as `none`). -/
def normText : Option AttrValue → Option String
  | some (.str s) => some s
  | some (.strArr ss) => ss.head?
  | some (.int _) => none
  | none => none

/-- One iteration of the `get_emddims` loop: read `group['dim{i+1}']` and
its `name`/`units` attributes.  A missing child, a child that is not a
dataset, or a bad attribute raises (modelled as `none`). -/
def readDim (c : List (String × HTree)) (i : Nat) : Option DimTriple :=
  match lookupChild c ("dim" ++ toString (i + 1)) with
  | some (.dset _ vals a) =>
      match normText (lookupAttr a "name"), normText (lookupAttr a "units") with
      | some n, some u => some ⟨vals, n, u⟩
      | _, _ => none
  | _ => none

/-- `fileEMD.get_emddims(group)`: one dim triple per axis of the dataset,
`dim1 .. dimN` in axis order; the first failure aborts the whole read. -/
def get_emddims (c : List (String × HTree)) (rank : Nat) : Option (List DimTriple) :=
  (List.range rank).mapM (readDim c)

/-- Outcome of `get_emdgroup`: an uncaught `TypeError`, the caught-and-
printed content error (the message quotes `group.name`), or the data with
its dims. -/
inductive GetResult : Type where
  | typeError
  | contentError (name : String)
  | ok (data : EmdArray) (dims : List DimTriple)
  deriving DecidableEq, Repr

/-- `fileEMD.get_emdgroup(group, memmap=False)` on the group with
attributes `a`, children `c` and absolute path `path`, under dataset-name
policy `p`.  The two leading `if`s raise `TypeError` unless the group
carries `emd_group_type == 1`; everything after runs inside a `try` whose
handler prints the content-shape message with `group.name` and returns
`None`. -/
def get_emdgroup (p : DsetPolicy) (a : Attrs) (c : List (String × HTree))
    (path : List String) : GetResult :=
  if hasEmdType a = false then .typeError
  else
    match get_dset_string p path with
    | .error _ => .contentError (nameOf path)
    | .ok ds =>
        match lookupChild c ds with
        | some (.dset shape vals _) =>
            match get_emddims c shape.length with
            | some dims => .ok ⟨shape, vals⟩ dims
            | none => .contentError (nameOf path)
        | _ => .contentError (nameOf path)

/-! ## Write side: `write_dim` / `put_emdgroup` -/

/-- `fileEMD.write_dim(label, dim, parent)`: create dataset `label` under
`parent` holding the dim values, with `name`/`units` stored as byte
strings.  (Three required parameters — the call site in `put_emdgroup`
supplies only two.) -/
def write_dim (label : String) (dim : DimTriple)
    (parent : List (String × HTree)) : List (String × HTree) :=
  parent ++ [(label, .dset [dim.values.length] dim.values
    [("name", .str dim.name), ("units", .str dim.units)])]

/-- The `put_emdgroup` input check on `dims`:
`len(dims) == len(data.shape)` and, per axis,
`dims[i][0].shape[0] == data.shape[i]`. -/
def dimsOk (data : EmdArray) (dims : List DimTriple) : Bool :=
  decide (dims.length = data.shape.length) &&
    (dims.zip data.shape).all (fun q => decide (q.1.values.length = q.2))

/-- Outcome of `put_emdgroup`: the uncaught
`TypeError('Something wrong with the provided dims')`, the caught
exception path (prints and returns `None`), or the new group's path. -/
inductive PutResult : Type where
  | dimsError
  | failed
  | ok (path : List String)
  deriving DecidableEq, Repr

/-- The group `put_emdgroup` has built when the dim loop starts:
`emd_group_type = 1` plus the `'data'` dataset (the dataset name is the
literal `'data'` here, independent of the layout policy). -/
def newEmdGroupPartial (data : EmdArray) : HTree :=
  .group [("emd_group_type", .int 1)]
    [("data", .dset data.shape data.vals [])]

/-- `fileEMD.put_emdgroup(label, data, dims, parent, overwrite)` acting on
the whole store tree `root`; `parent` is the path of the parent group
(`none` means `self.data`, i.e. `/data`).  After the input check, the
whole body runs in a `try` whose handler prints and returns `None`.
An occupied label with `overwrite=False` raises `RuntimeError` (caught,
no mutation); with `overwrite=True` the old group is deleted and a fresh
group with its attribute and `'data'` dataset is created.  The dim loop
then executes `self.write_dim(dims[i], grp)` — two arguments for a method
of three required parameters — so its first iteration raises `TypeError`;
for a non-empty `dims` the call therefore returns `None` with the partial
group left in place, and only for an empty `dims` does it succeed. -/
def put_emdgroup (root : HTree) (label : String) (data : EmdArray)
    (dims : List DimTriple) (parent : Option (List String))
    (overwrite : Bool) : HTree × PutResult :=
  if dimsOk data dims = false then (root, .dimsError)
  else
    let target := parent.getD ["data"]
    match lookupPath root target with
    | some (.group _ c) =>
        if (lookupChild c label).isSome && !overwrite then (root, .failed)
        else
          let newRoot := (modifyChildrenAt root target (fun ch =>
            delChild ch label ++ [(label, newEmdGroupPartial data)])).getD root
          if dims.length = 0 then (newRoot, .ok (target ++ [label]))
          else (newRoot, .failed)
    | _ => (root, .failed)

/-! ## Comment ledger: `put_comment` -/

/-- `fileEMD.put_comment(msg, timestamp)` acting on the attribute set of
the `comments` group.  `timestamp = none` models the omitted argument and
`now` the formatted current UTC time; a falsy explicit timestamp (the
empty string) is also replaced by `now`, since the source tests
`if not timestamp`.  An existing key gets `'\n' + msg` appended to its
byte-string value (`+=` on a non-string raises, modelled as `none`); a
fresh key gets a new attribute. -/
def put_comment (comments : Attrs) (msg : String) (timestamp : Option String)
    (now : String) : Option Attrs :=
  let key := match timestamp with
    | none => now
    | some ts => if ts = "" then now else ts
  match lookupAttr comments key with
  | some (.str old) => some (setAttr comments key (.str (old ++ "\n" ++ msg)))
  | some _ => none
  | none => some (setAttr comments key (.str msg))

/-! ## Version resolver: `check_version` of the two classes -/

/-- `fileEMD.check_version()` acting on the root attributes: when both
version attributes exist, read them and warn unless the pair is exactly
`(0, 2)`; otherwise, when writable, persist `(0, 2)`.  Returns the new
root attributes, the version read (`none` when absent), and whether the
warning was printed. -/
def check_version (attrs : Attrs) (readonly : Bool) :
    Attrs × Option (AttrValue × AttrValue) × Bool :=
  match lookupAttr attrs "version_major", lookupAttr attrs "version_minor" with
  | some vM, some vm =>
      (attrs, some (vM, vm),
        decide (¬(vM = .int 0 ∧ vm = .int 2)))
  | _, _ =>
      if readonly then (attrs, none, false)
      else
        (setAttr (setAttr attrs "version_major" (.int 0))
          "version_minor" (.int 2), none, false)

/-- `fileEMD_v05.check_version()`: read-only variant; warns unless the
pair is exactly `(0, 5)` and never writes anything. -/
def check_version_v05 (attrs : Attrs) :
    Attrs × Option (AttrValue × AttrValue) × Bool :=
  match lookupAttr attrs "version_major", lookupAttr attrs "version_minor" with
  | some vM, some vm =>
      (attrs, some (vM, vm),
        decide (¬(vM = .int 0 ∧ vm = .int 5)))
  | _, _ => (attrs, none, false)

/-! ## Constructor bootstrap: `fileEMD.__init__` / `fileEMD_v05.__init__` -/

/-- One `if name not in file: if not readonly: create_group(name)` step of
the constructor. -/
def ensureGroup (c : List (String × HTree)) (n : String) (readonly : Bool) :
    List (String × HTree) :=
  if (lookupChild c n).isSome then c
  else if readonly then c
  else c ++ [(n, .group [] [])]

/-- The state-changing part of `fileEMD.__init__(filename, readonly)` after
the file is opened: run `self.check_version()` (dynamically dispatched, so
a subclass override applies) and bootstrap the five root groups.  Returns
the new tree together with the h5py open mode (`'r'` when readonly,
`'a'` otherwise). -/
def fileEMD_init_with (cv : Attrs → Bool → Attrs) (root : HTree)
    (readonly : Bool) : HTree × String :=
  let mode := if readonly then "r" else "a"
  match root with
  | .dset s v a => (.dset s v a, mode)
  | .group a c =>
      (.group (cv a readonly)
        (["data", "microscope", "sample", "user", "comments"].foldl
          (fun acc n => ensureGroup acc n readonly) c), mode)

/-- `fileEMD.__init__` proper (v0.2 `check_version`). -/
def fileEMD_init (root : HTree) (readonly : Bool) : HTree × String :=
  fileEMD_init_with (fun a ro => (check_version a ro).1) root readonly

/-- `fileEMD_v05.__init__(filename, *args, **kwargs)`: every extra
positional argument and every keyword argument (in particular a
`readonly=` one) is swallowed and discarded; the base constructor is
invoked as `super().__init__(filename, readonly=True)`, with the
overridden (read-only) `check_version`. -/
def fileEMD_v05_init (root : HTree) (posArgs : List Bool)
    (kwargs : List (String × Bool)) : HTree × String :=
  fileEMD_init_with (fun a _ => (check_version_v05 a).1) root true

/-! ## `defaultDims` -/

/-- The `pixel_size` argument of `defaultDims`: omitted/`None`, an explicit
tuple, or a numpy array. -/
inductive PixelSizeArg : Type where
  | noneArg
  | tuple (ps : List ℚ)
  | ndarray (ps : List ℚ)
  deriving DecidableEq, Repr

/-- `defaultDims(data, pixel_size)`, depending on `data` only through its
shape.  A numpy-array `pixel_size` raises
`Exception('pixel_size must be a tuple')`; then `if not pixel_size`
(Python truthiness: `None` and the empty tuple are falsy) substitutes
`(1,) * data.ndim`; then a length mismatch raises `ValueError`; otherwise
axis `ii` gets values `linspace(0, shape[ii]-1, shape[ii]) * pixel_size[ii]`
= `[0, 1, ..., shape[ii]-1] * pixel_size[ii]`, name `dim{ii+1}` and units
`unit{ii+1}`. -/
def defaultDims (shape : List Nat) (pixel_size : PixelSizeArg) :
    Except String (List DimTriple) :=
  match pixel_size with
  | .ndarray _ => .error "pixel_size must be a tuple"
  | arg =>
      let num := shape.length
      let given : List ℚ := match arg with
        | .tuple ps => ps
        | _ => []
      let truthy : Bool := match arg with
        | .tuple ps => decide (ps ≠ [])
        | _ => false
      let ps : List ℚ := if truthy then given else List.replicate num 1
      if ps.length ≠ num then
        .error "pixel_size and data dimensions must match"
      else
        .ok ((List.range num).map (fun ii =>
          ⟨(List.range (shape.getD ii 0)).map (fun j => (j : ℚ) * ps.getD ii 0),
           "dim" ++ toString (ii + 1), "unit" ++ toString (ii + 1)⟩))

/-- Read a group through its handle: `lookupPath` finds the group object,
`get_emdgroup` runs on its attributes, children and absolute name. -/
def get_emdgroup_at (p : DsetPolicy) (root : HTree) (path : List String) :
    Option GetResult :=
  match lookupPath root path with
  | some (.group a c) => some (get_emdgroup p a c path)
  | _ => none

/-! ## Helper lemmas on the attribute store -/

theorem lookupAttr_setAttr_self (a : Attrs) (k : String) (v : AttrValue) :
    lookupAttr (setAttr a k v) k = some v := by
  induction a with
  | nil => simp [setAttr, lookupAttr]
  | cons kw rest ih =>
      obtain ⟨k', w⟩ := kw
      by_cases h : k' = k <;> simp [setAttr, lookupAttr, h, ih]

theorem lookupAttr_setAttr_ne (a : Attrs) (k k' : String) (v : AttrValue)
    (h : k' ≠ k) : lookupAttr (setAttr a k v) k' = lookupAttr a k' := by
  have hk : ¬k = k' := fun hh => h hh.symm
  induction a with
  | nil => simp [setAttr, lookupAttr, hk]
  | cons kw rest ih =>
      obtain ⟨k'', w⟩ := kw
      by_cases h2 : k'' = k
      · subst h2
        simp [setAttr, lookupAttr, hk]
      · by_cases h3 : k'' = k' <;> simp [setAttr, lookupAttr, h2, h3, h, ih]

theorem setAttr_of_lookup_none (a : Attrs) (k : String) (v : AttrValue)
    (h : lookupAttr a k = none) : setAttr a k v = a ++ [(k, v)] := by
  induction a with
  | nil => simp [setAttr]
  | cons kw rest ih =>
      obtain ⟨k', w⟩ := kw
      by_cases h2 : k' = k
      · simp [lookupAttr, h2] at h
      · simp [lookupAttr, h2] at h
        simp [setAttr, h2, ih h]

theorem length_setAttr_of_lookup_some (a : Attrs) (k : String)
    (v w : AttrValue) (h : lookupAttr a k = some w) :
    (setAttr a k v).length = a.length := by
  induction a with
  | nil => simp [lookupAttr] at h
  | cons kw rest ih =>
      obtain ⟨k', w'⟩ := kw
      by_cases h2 : k' = k
      · simp [setAttr, h2]
      · simp [lookupAttr, h2] at h
        simp [setAttr, h2, ih h]

theorem lookupAttr_append_key (a : Attrs) (k : String) (v : AttrValue)
    (h : lookupAttr a k = none) : lookupAttr (a ++ [(k, v)]) k = some v := by
  rw [← setAttr_of_lookup_none a k v h]
  exact lookupAttr_setAttr_self a k v

theorem parent_component (pre : List String) (p g : String) :
    ("" :: (pre ++ [p, g])).getD (("" :: (pre ++ [p, g])).length - 2) "" = p := by
  have h1 : ("" :: (pre ++ [p, g])).length - 2 = pre.length + 1 := by
    simp only [List.length_cons, List.length_append, List.length_cons,
      List.length_nil]
    omega
  rw [h1, List.getD_cons_succ,
    List.getD_append_right pre [p, g] "" pre.length le_rfl]
  simp

/-- Claim C4: dataset-name resolution is exactly the layout-policy mapping:
v0.2 returns the constant `"data"` for every group; v0.5 maps the group's
parent name `datacubes ↦ datacube`, `diffractionslices ↦ diffractionslice`,
`pointlistarrayss ↦ pointlistarray`, `pointlists ↦ pointlist`,
`realslices ↦ realslice` and fails with the unsupported-layout error for
every other parent name (including the empty parent name of the root's
direct children). -/
theorem dset_string_policy_maps :
    (∀ path, get_dset_string .v02 path = .ok "data") ∧
    (∀ pre p g, get_dset_string .v05 (pre ++ [p, g]) =
      (if p = "datacubes" then .ok "datacube"
       else if p = "diffractionslices" then .ok "diffractionslice"
       else if p = "pointlistarrayss" then .ok "pointlistarray"
       else if p = "pointlists" then .ok "pointlist"
       else if p = "realslices" then .ok "realslice"
       else .error "dset name not supported")) ∧
    get_dset_string .v05 [] = .error "dset name not supported" ∧
    (∀ g, get_dset_string .v05 [g] = .error "dset name not supported") := by
  refine ⟨fun _ => rfl, fun pre p g => ?_, rfl, fun g => rfl⟩
  show get_dset_string_v05 _ = _
  simp only [get_dset_string_v05]
  rw [parent_component]

theorem ensureGroup_readonly (c : List (String × HTree)) (n : String) :
    ensureGroup c n true = c := by
  unfold ensureGroup
  split
  · rfl
  · simp

theorem check_version_v05_attrs (a : Attrs) : (check_version_v05 a).1 = a := by
  unfold check_version_v05
  cases lookupAttr a "version_major" <;> cases lookupAttr a "version_minor" <;>
    rfl

/-- Claim C10: for every store state and any extra positional or keyword
arguments (in particular an attempted `readonly=False`), constructing
`fileEMD_v05` opens the file in h5py mode `'r'` (read-only) and performs no
store mutation: the caller's arguments are discarded and `readonly=True`
is forwarded to the base constructor. -/
theorem fileEMD_v05_always_readonly (root : HTree) (posArgs : List Bool)
    (kwargs : List (String × Bool)) :
    fileEMD_v05_init root posArgs kwargs = (root, "r") := by
  unfold fileEMD_v05_init fileEMD_init_with
  cases root with
  | dset s v a => rfl
  | group a c =>
      simp [check_version_v05_attrs, ensureGroup_readonly, List.foldl]

/-- Claim C6: version resolution never fails: on a writable store with no
version attributes, `check_version` persists `(0, 2)` immediately, so
reading the version attributes afterwards yields exactly `(0, 2)`; when
both version attributes are present but not the expected `(0, 2)`, the
call only sets the warning flag and changes nothing (`check_version` is a
total function — no error outcome exists). -/
theorem check_version_contract (attrs : Attrs) (ro : Bool) (vM vm : AttrValue) :
    (lookupAttr attrs "version_major" = none →
     lookupAttr attrs "version_minor" = none →
     lookupAttr (check_version attrs false).1 "version_major" =
       some (.int 0) ∧
     lookupAttr (check_version attrs false).1 "version_minor" =
       some (.int 2)) ∧
    (lookupAttr attrs "version_major" = some vM →
     lookupAttr attrs "version_minor" = some vm →
     ¬(vM = .int 0 ∧ vm = .int 2) →
     check_version attrs ro = (attrs, some (vM, vm), true)) := by
  constructor
  · intro hM hm
    unfold check_version
    rw [hM, hm]
    simp only [Bool.false_eq_true, if_false]
    constructor
    · rw [lookupAttr_setAttr_ne _ _ _ _ (by decide)]
      exact lookupAttr_setAttr_self _ _ _
    · exact lookupAttr_setAttr_self _ _ _
  · intro hM hm hne
    unfold check_version
    rw [hM, hm]
    simp [hne]

/-- Witness for C6 at concrete stores: a fresh writable store gets exactly
`(0, 2)`, and a store carrying version `(0, 3)` is left unchanged with the
warning flag set. -/
theorem check_version_contract_witness :
    (lookupAttr (check_version [] false).1 "version_major" =
       some (.int 0) ∧
     lookupAttr (check_version [] false).1 "version_minor" =
       some (.int 2)) ∧
    check_version [("version_major", AttrValue.int 0),
        ("version_minor", AttrValue.int 3)] true =
      ([("version_major", AttrValue.int 0),
        ("version_minor", AttrValue.int 3)],
       some (AttrValue.int 0, AttrValue.int 3), true) :=
  ⟨(check_version_contract [] true (.int 0) (.int 3)).1 rfl rfl,
   (check_version_contract [("version_major", AttrValue.int 0),
      ("version_minor", AttrValue.int 3)] true (.int 0) (.int 3)).2 rfl rfl
     (by decide)⟩

/-- Counterexample for C7 as stated: the empty string is a possible
explicit timestamp key, but the source tests `if not timestamp`, so a
falsy explicit key is replaced by the generated current-UTC key: two
appends under the explicit key `""` (the clock having advanced between
the calls) create two separate entries instead of one newline-joined
entry, and nothing is ever stored under `""` itself. -/
theorem put_comment_empty_key_counterexample :
    put_comment [] "m1" (some "") "2020-01-01 00:00:00 (UTC)" =
      some [("2020-01-01 00:00:00 (UTC)", AttrValue.str "m1")] ∧
    put_comment [("2020-01-01 00:00:00 (UTC)", AttrValue.str "m1")] "m2"
        (some "") "2020-01-01 00:00:01 (UTC)" =
      some [("2020-01-01 00:00:00 (UTC)", AttrValue.str "m1"),
        ("2020-01-01 00:00:01 (UTC)", AttrValue.str "m2")] ∧
    lookupAttr [("2020-01-01 00:00:00 (UTC)", AttrValue.str "m1"),
        ("2020-01-01 00:00:01 (UTC)", AttrValue.str "m2")] "" = none :=
  ⟨rfl, rfl, rfl⟩

/-- Claim C7 (amended to non-empty keys): for every message and non-empty
timestamp key, if the comments group already holds an attribute under that
exact key `put_comment` replaces its value with the old value, a newline
and the new message — same entry count, all other keys untouched — and two
appends to the same fresh key yield one entry whose text is the two
messages joined by a newline, in call order; a fresh key gets exactly one
new attribute holding the message. -/
theorem put_comment_append_merge (comments : Attrs) (msg msg2 ts now : String)
    (hts : ts ≠ "") :
    (∀ old, lookupAttr comments ts = some (.str old) →
      put_comment comments msg (some ts) now =
        some (setAttr comments ts (.str (old ++ "\n" ++ msg))) ∧
      lookupAttr (setAttr comments ts (.str (old ++ "\n" ++ msg))) ts =
        some (.str (old ++ "\n" ++ msg)) ∧
      (setAttr comments ts (.str (old ++ "\n" ++ msg))).length =
        comments.length ∧
      (∀ k, k ≠ ts →
        lookupAttr (setAttr comments ts (.str (old ++ "\n" ++ msg))) k =
          lookupAttr comments k)) ∧
    (lookupAttr comments ts = none →
      put_comment comments msg (some ts) now =
        some (comments ++ [(ts, .str msg)]) ∧
      ∃ c2, put_comment (comments ++ [(ts, .str msg)]) msg2 (some ts) now =
          some c2 ∧
        lookupAttr c2 ts = some (.str (msg ++ "\n" ++ msg2)) ∧
        c2.length = comments.length + 1) := by
  constructor
  · intro old hold
    refine ⟨?_, lookupAttr_setAttr_self _ _ _,
      length_setAttr_of_lookup_some _ _ _ _ hold,
      fun k hk => lookupAttr_setAttr_ne _ _ _ _ hk⟩
    simp only [put_comment]
    rw [if_neg hts, hold]
  · intro hnone
    have hfirst : put_comment comments msg (some ts) now =
        some (comments ++ [(ts, .str msg)]) := by
      simp only [put_comment]
      rw [if_neg hts, hnone, setAttr_of_lookup_none _ _ _ hnone]
    refine ⟨hfirst, setAttr (comments ++ [(ts, .str msg)]) ts
      (.str (msg ++ "\n" ++ msg2)), ?_, ?_, ?_⟩
    · simp only [put_comment]
      rw [if_neg hts, lookupAttr_append_key _ _ _ hnone]
    · exact lookupAttr_setAttr_self _ _ _
    · rw [length_setAttr_of_lookup_some _ _ _ _
        (lookupAttr_append_key _ _ _ hnone)]
      simp

/-- Witness for C7: appending twice under the fresh key `"t"` and once
more under the now-occupied key. -/
theorem put_comment_append_merge_witness :
    put_comment [] "a" (some "t") "NOW" = some [("t", AttrValue.str "a")] ∧
    ∃ c2, put_comment [("t", AttrValue.str "a")] "b" (some "t") "NOW" =
        some c2 ∧
      lookupAttr c2 "t" = some (AttrValue.str "a\nb") ∧
      c2.length = 1 :=
  (put_comment_append_merge [] "a" "b" "t" "NOW" (by decide)).2 rfl

/-- Claim C2: for every store state, label, array and dims with
`len(dims) ≠ data.rank`, or with a values vector whose length differs from
the matching axis extent, `put_emdgroup` raises the shape-mismatch
`TypeError` and performs no store mutation: the returned store state is
exactly the input state. -/
theorem put_emdgroup_shape_guard (root : HTree) (label : String)
    (data : EmdArray) (dims : List DimTriple) (parent : Option (List String))
    (ow : Bool)
    (h : dims.length ≠ data.shape.length ∨
      ∃ (i : Nat) (h1 : i < dims.length) (h2 : i < data.shape.length),
        (dims.get ⟨i, h1⟩).values.length ≠ data.shape.get ⟨i, h2⟩) :
    put_emdgroup root label data dims parent ow = (root, .dimsError) := by
  have hok : dimsOk data dims = false := by
    rcases h with h | ⟨i, h1, h2, hne⟩
    · simp [dimsOk, h]
    · have hilen : i < (dims.zip data.shape).length := by
        rw [List.length_zip]
        omega
      have hall : (dims.zip data.shape).all
          (fun q => decide (q.1.values.length = q.2)) = false := by
        by_contra hc
        rw [Bool.not_eq_false] at hc
        have hx := List.all_eq_true.mp hc _ (List.getElem_mem hilen)
        rw [List.getElem_zip] at hx
        simp only [List.get_eq_getElem] at hne
        simp at hx
        exact hne hx
      simp [dimsOk, hall]
  simp [put_emdgroup, hok]

/-- Witness for C2: a rank-1 array with an empty dims tuple is rejected
with no change to the (empty) store. -/
theorem put_emdgroup_shape_guard_witness :
    put_emdgroup (.group [] []) "x" ⟨[2], [0, 0]⟩ [] none false =
      (.group [] [], .dimsError) :=
  put_emdgroup_shape_guard _ _ _ _ _ _ (Or.inl (by decide))

/-- Counterexample for C8 as stated: an explicit empty tuple has length 0,
different from the rank 1 of the array, yet `defaultDims` does not fail —
the source tests `if not pixel_size:`, and the empty tuple is falsy, so it
is silently replaced by the per-axis default before the length check. -/
theorem defaultDims_empty_tuple_counterexample :
    ([] : List ℚ).length ≠ ([2] : List Nat).length ∧
    defaultDims [2] (.tuple []) =
      .ok [⟨[0, 1], "dim1", "unit1"⟩] := by
  refine ⟨by decide, ?_⟩
  simp [defaultDims, List.range_succ]
  exact ⟨rfl, rfl⟩

/-- Claim C8 (amended): `defaultDims` returns one triple per axis `i` with
values `[0, 1, ..., shape[i]-1] * pixel_sizes[i]`, name `dim{i+1}` and
units `unit{i+1}`; an omitted `pixel_sizes` — and likewise a falsy one,
i.e. the empty tuple — defaults to 1.0 per axis; a non-empty given
`pixel_sizes` whose length differs from the rank fails with the
dimension-mismatch error; and a numpy-array `pixel_sizes` is rejected. -/
theorem defaultDims_contract (shape : List Nat) (ps : List ℚ) :
    (∀ qs, defaultDims shape (.ndarray qs) =
      .error "pixel_size must be a tuple") ∧
    (ps ≠ [] → ps.length ≠ shape.length →
      defaultDims shape (.tuple ps) =
        .error "pixel_size and data dimensions must match") ∧
    (ps ≠ [] → ps.length = shape.length →
      ∃ dims, defaultDims shape (.tuple ps) = .ok dims ∧
        dims.length = shape.length ∧
        ∀ i, i < shape.length →
          dims.getD i ⟨[], "", ""⟩ =
            ⟨(List.range (shape.getD i 0)).map
                (fun j => (j : ℚ) * ps.getD i 0),
             "dim" ++ toString (i + 1), "unit" ++ toString (i + 1)⟩) ∧
    (∀ arg, arg = PixelSizeArg.noneArg ∨ arg = .tuple [] →
      ∃ dims, defaultDims shape arg = .ok dims ∧
        dims.length = shape.length ∧
        ∀ i, i < shape.length →
          dims.getD i ⟨[], "", ""⟩ =
            ⟨(List.range (shape.getD i 0)).map (fun j => (j : ℚ)),
             "dim" ++ toString (i + 1), "unit" ++ toString (i + 1)⟩) := by
  refine ⟨fun qs => rfl, ?_, ?_, ?_⟩
  · intro hne hlen
    simp [defaultDims, hne, hlen]
  · intro hne hlen
    refine ⟨(List.range shape.length).map (fun ii =>
        ⟨(List.range (shape.getD ii 0)).map (fun j => (j : ℚ) * ps.getD ii 0),
         "dim" ++ toString (ii + 1), "unit" ++ toString (ii + 1)⟩),
      ?_, by simp, ?_⟩
    · simp [defaultDims, hne, hlen]
    · intro i hi
      rw [List.getD_eq_getElem _ _ (by simpa using hi)]
      simp
  · rintro arg (rfl | rfl) <;>
      · refine ⟨(List.range shape.length).map (fun ii =>
            ⟨(List.range (shape.getD ii 0)).map
                (fun j => (j : ℚ) * (List.replicate shape.length (1 : ℚ)).getD ii 0),
             "dim" ++ toString (ii + 1), "unit" ++ toString (ii + 1)⟩),
          by simp [defaultDims], by simp, ?_⟩
        intro i hi
        rw [List.getD_eq_getElem _ _ (by simpa using hi)]
        simp [List.getElem?_replicate, hi]

/-- Witness for C8: concrete evaluations through the amended contract, at
a mismatched non-empty tuple and at a matching half-unit pixel size. -/
theorem defaultDims_contract_witness :
    defaultDims [2] (.tuple [1, 2]) =
      .error "pixel_size and data dimensions must match" ∧
    ∃ dims, defaultDims [2] (.tuple [(1 : ℚ)/2]) = .ok dims ∧
      dims.length = ([2] : List Nat).length ∧
      ∀ i, i < ([2] : List Nat).length →
        dims.getD i ⟨[], "", ""⟩ =
          ⟨(List.range (([2] : List Nat).getD i 0)).map
              (fun j => (j : ℚ) * ([(1 : ℚ)/2].getD i 0)),
           "dim" ++ toString (i + 1), "unit" ++ toString (i + 1)⟩ :=
  ⟨(defaultDims_contract [2] [1, 2]).2.1 (by decide) (by decide),
   (defaultDims_contract [2] [(1 : ℚ)/2]).2.2.1 (by decide) (by decide)⟩

/-! ## Discovery: `find_emdgroups` versus the pre-order enumeration -/

theorem procGroup_eq_filter (items : List (String × HTree)) :
    procGroup items =
      ((preorderGroups items).filter (fun e => hasEmdType e.2)).map
        Prod.fst := by
  induction items using procGroup.induct with
  | case1 => simp [procGroup, preorderGroups]
  | case2 x s v a rest ih =>
      simpa only [procGroup, preorderGroups] using ih
  | case3 n a c rest ih1 ih2 =>
      simp only [procGroup, preorderGroups, ih1, ih2, List.filter_cons,
        List.filter_append, List.filter_map, List.map_append, List.map_map]
      by_cases h : hasEmdType a <;> simp [h, Function.comp_def]

theorem preorderGroups_shape (items : List (String × HTree)) :
    ∀ e ∈ preorderGroups items,
      ∃ m t, e.1 = m :: t ∧ m ∈ items.map Prod.fst := by
  induction items using preorderGroups.induct with
  | case1 => intro e he; simp [preorderGroups] at he
  | case2 x s v a rest ih =>
      intro e he
      obtain ⟨m, t, hmt, hmem⟩ := ih e (by simpa [preorderGroups] using he)
      exact ⟨m, t, hmt, by simp [hmem]⟩
  | case3 n a c rest ih1 ih2 =>
      intro e he
      simp only [preorderGroups, List.mem_cons, List.mem_append,
        List.mem_map] at he
      rcases he with rfl | ⟨e', he', rfl⟩ | he
      · exact ⟨n, [], rfl, by simp⟩
      · exact ⟨n, e'.1, rfl, by simp⟩
      · obtain ⟨m, t, hmt, hmem⟩ := ih2 e he
        exact ⟨m, t, hmt, by simp [hmem]⟩

theorem preorderGroups_paths_nodup (items : List (String × HTree))
    (hnd : (items.map Prod.fst).Nodup) (hwf : wfChildren items = true) :
    ((preorderGroups items).map Prod.fst).Nodup := by
  induction items using preorderGroups.induct with
  | case1 => simp [preorderGroups]
  | case2 x s v a rest ih =>
      simp only [List.map_cons, List.nodup_cons] at hnd
      simp only [wfChildren] at hwf
      simpa only [preorderGroups] using ih hnd.2 hwf
  | case3 n a c rest ih1 ih2 =>
      simp only [List.map_cons, List.nodup_cons] at hnd
      simp only [wfChildren, Bool.and_eq_true, decide_eq_true_eq] at hwf
      obtain ⟨⟨hcnd, hcwf⟩, hrwf⟩ := hwf
      obtain ⟨hn, hrnd⟩ := hnd
      have hA : ((preorderGroups c).map
          (fun e => n :: e.1)).Nodup := by
        have := (ih1 hcnd hcwf).map (f := fun p => n :: p)
          (fun p q h => by injection h)
        simpa [List.map_map, Function.comp_def] using this
      have hB := ih2 hrnd hrwf
      have hAB : ∀ p ∈ (preorderGroups c).map (fun e => n :: e.1),
          p ∉ (preorderGroups rest).map Prod.fst := by
        intro p hp hq
        simp only [List.mem_map] at hp hq
        obtain ⟨e1, _, rfl⟩ := hp
        obtain ⟨e2, he2, heq⟩ := hq
        obtain ⟨m, t, hmt, hmem⟩ := preorderGroups_shape rest e2 he2
        rw [hmt] at heq
        cases heq
        exact hn hmem
      have hnotA : ([n] : List String) ∉
          (preorderGroups c).map (fun e => n :: e.1) := by
        intro hmem
        simp only [List.mem_map] at hmem
        obtain ⟨e', he', heq⟩ := hmem
        obtain ⟨m, t, hmt, _⟩ := preorderGroups_shape c e' he'
        rw [hmt] at heq
        cases heq
      have hnotB : ([n] : List String) ∉
          (preorderGroups rest).map Prod.fst := by
        intro hmem
        simp only [List.mem_map] at hmem
        obtain ⟨e', he', heq⟩ := hmem
        obtain ⟨m, t, hmt, hmemn⟩ := preorderGroups_shape rest e' he'
        rw [hmt] at heq
        cases heq
        exact hn hmemn
      simp only [preorderGroups, List.map_cons, List.map_append,
        List.map_map, Function.comp_def, List.nodup_cons,
        List.nodup_append, List.mem_append]
      refine ⟨?_, hA, hB, fun p hp hq => hAB p hp hq⟩
      intro h
      rcases h with h | h
      · exact hnotA h
      · exact hnotB h

/-- Counterexample for C3 as stated: a root that itself carries
`emd_group_type == 1` (depth 0) is not returned by discovery —
`proc_group` only ever tests the children of the group it is handed, never
that group itself. -/
theorem find_emdgroups_misses_root :
    hasEmdType (nodeAttrs (.group [("emd_group_type", .int 1)] [])) =
      true ∧
    find_emdgroups (.group [("emd_group_type", .int 1)] []) = [] :=
  ⟨by decide, by simp [find_emdgroups, procGroup]⟩

/-- Claim C3 (amended): discovery returns exactly the proper descendant
groups (depth ≥ 1; the root itself is never tested) carrying attribute
`emd_group_type` with value exactly 1, in depth-first pre-order — each
qualifying group before its own children — and, sibling names being unique
in an HDF5 file, no group appears twice. -/
theorem find_emdgroups_spec (a : Attrs) (items : List (String × HTree))
    (h : wfNames (.group a items) = true) :
    find_emdgroups (.group a items) =
      ((preorderGroups items).filter (fun e => hasEmdType e.2)).map
        Prod.fst ∧
    (find_emdgroups (.group a items)).Nodup := by
  refine ⟨procGroup_eq_filter items, ?_⟩
  show (procGroup items).Nodup
  rw [procGroup_eq_filter items]
  simp only [wfNames, Bool.and_eq_true, decide_eq_true_eq] at h
  exact (preorderGroups_paths_nodup items h.1 h.2).sublist
    ((List.filter_sublist _).map Prod.fst)

/-- Witness for C3 on a hierarchy with EMD-typed groups at depths 1, 2
and 2 (mixed with a dataset and a plain group). -/
theorem find_emdgroups_spec_witness :
    find_emdgroups (.group []
      [("g1", .group [("emd_group_type", .int 1)]
          [("sub", .group [("emd_group_type", .int 1)] [])]),
       ("d", .dset [2] [0, 0] []),
       ("g2", .group [] [("g3", .group [("emd_group_type", .int 1)] [])])]) =
      ((preorderGroups
        [("g1", .group [("emd_group_type", .int 1)]
            [("sub", .group [("emd_group_type", .int 1)] [])]),
         ("d", .dset [2] [0, 0] []),
         ("g2", .group []
            [("g3", .group [("emd_group_type", .int 1)] [])])]).filter
          (fun e => hasEmdType e.2)).map Prod.fst ∧
    (find_emdgroups (.group []
      [("g1", .group [("emd_group_type", .int 1)]
          [("sub", .group [("emd_group_type", .int 1)] [])]),
       ("d", .dset [2] [0, 0] []),
       ("g2", .group []
          [("g3", .group [("emd_group_type", .int 1)] [])])])).Nodup :=
  find_emdgroups_spec [] _ (by simp [wfNames, wfChildren])

/-! ## Read-side error behaviour -/

theorem mapM_eq_none_of_mem {α β : Type} (f : α → Option β) (l : List α)
    (x : α) (hx : x ∈ l) (hf : f x = none) : l.mapM f = none := by
  induction l with
  | nil => cases hx
  | cons y ys ih =>
      rw [List.mapM_cons]
      rcases List.mem_cons.mp hx with rfl | h
      · rw [hf]
        rfl
      · cases hy : f y with
        | none => rfl
        | some b =>
            rw [ih h]
            rfl

/-- Claim C9: `get_emdgroup` on a group that does not carry
`emd_group_type == 1` raises the type-mismatch `TypeError`; once the type
check passes, every structural failure of the read sequence — unsupported
layout name, missing or non-dataset main dataset, or a failing dim read
(missing `dim{i+1}` vector, bad `name`/`units`) for any axis — aborts the
whole read with the content-shape error carrying the group's absolute
path, and no partial result is returned. -/
theorem get_emdgroup_error_contract (p : DsetPolicy) (a : Attrs)
    (c : List (String × HTree)) (path : List String) :
    (hasEmdType a = false → get_emdgroup p a c path = .typeError) ∧
    (hasEmdType a = true →
      (∀ e, get_dset_string p path = .error e →
        get_emdgroup p a c path = .contentError (nameOf path)) ∧
      (∀ ds, get_dset_string p path = .ok ds →
        (∀ shape vals dattrs,
          lookupChild c ds ≠ some (.dset shape vals dattrs)) →
        get_emdgroup p a c path = .contentError (nameOf path)) ∧
      (∀ ds shape vals dattrs, get_dset_string p path = .ok ds →
        lookupChild c ds = some (.dset shape vals dattrs) →
        ∀ i, i < shape.length → readDim c i = none →
        get_emdgroup p a c path = .contentError (nameOf path))) := by
  constructor
  · intro h
    simp [get_emdgroup, h]
  · intro htrue
    refine ⟨?_, ?_, ?_⟩
    · intro e he
      simp [get_emdgroup, htrue, he]
    · intro ds hds hne
      cases hlc : lookupChild c ds with
      | none => simp [get_emdgroup, htrue, hds, hlc]
      | some t =>
          cases t with
          | dset s v da => exact absurd hlc (hne s v da)
          | group a2 c2 => simp [get_emdgroup, htrue, hds, hlc]
    · intro ds shape vals dattrs hds hlc i hi hnone
      have hdims : get_emddims c shape.length = none :=
        mapM_eq_none_of_mem (readDim c) (List.range shape.length) i
          (List.mem_range.mpr hi) hnone
      simp [get_emdgroup, htrue, hds, hlc, hdims]

/-- Witness for C9: a group without the type attribute raises the type
error; a typed group with no `'data'` dataset reports the content error
with its path. -/
theorem get_emdgroup_error_contract_witness :
    get_emdgroup .v02 [] [] ["g"] = .typeError ∧
    get_emdgroup .v02 [("emd_group_type", AttrValue.int 1)] [] ["g"] =
      .contentError (nameOf ["g"]) :=
  ⟨(get_emdgroup_error_contract .v02 [] [] ["g"]).1 (by decide),
   (((get_emdgroup_error_contract .v02 [("emd_group_type", AttrValue.int 1)]
      [] ["g"]).2 (by decide)).2.1 "data" rfl
      (fun shape vals dattrs => by simp [lookupChild]))⟩

/-! ## The broken write path: `put_emdgroup` and the round trip -/

/-- A fresh writable store right after the constructor bootstrap (only the
`data` group matters for the write path). -/
def freshRoot : HTree := .group [] [("data", .group [] [])]

/-- The store `put_emdgroup('x', zeros((1,)), dims)` leaves behind: the
group exists with its type attribute and `'data'` dataset, but no `dim1`
child was ever written. -/
def brokenAfterPut : HTree :=
  .group [] [("data", .group []
    [("x", .group [("emd_group_type", .int 1)]
        [("data", .dset [1] [0] [])])])]

/-- Claim C1 (code bug): the round trip breaks for every array of rank
≥ 1.  With a well-formed `dims` tuple for a rank-1 array, `put_emdgroup`
does not return a group handle but the caught-exception `None` — its dim
loop invokes `self.write_dim(dims[i], grp)` with two arguments although
`write_dim` requires `(label, dim, parent)`, raising `TypeError` — and it
leaves a partial group carrying `emd_group_type = 1` and the data but no
`dim1`; discovery then finds that group, and `get_emdgroup` on it reports
the content-shape error instead of returning `(A, D)`. -/
theorem put_roundtrip_broken :
    dimsOk ⟨[1], [0]⟩ [⟨[0], "dim1", "unit1"⟩] = true ∧
    put_emdgroup freshRoot "x" ⟨[1], [0]⟩ [⟨[0], "dim1", "unit1"⟩]
        none false = (brokenAfterPut, .failed) ∧
    find_emdgroups brokenAfterPut = [["data", "x"]] ∧
    get_emdgroup_at .v02 brokenAfterPut ["data", "x"] =
      some (.contentError "/data/x") := by
  refine ⟨by decide, rfl, ?_, rfl⟩
  simp [brokenAfterPut, find_emdgroups, procGroup, hasEmdType, lookupAttr]

/-- A store holding a complete, readable EMD group `x` under `/data` (as
the fixed write path would have produced it). -/
def occupiedRoot : HTree :=
  .group [] [("data", .group []
    [("x", .group [("emd_group_type", .int 1)]
        [("data", .dset [1] [5] []),
         ("dim1", .dset [1] [0]
            [("name", .str "dim1"), ("units", .str "unit1")])])])]

/-- The store after `put_emdgroup('x', ..., overwrite=True)` on
`occupiedRoot`: the old group was deleted and the replacement holds only
the type attribute and the new `'data'` dataset — no `dim1`. -/
def overwrittenRoot : HTree :=
  .group [] [("data", .group []
    [("x", .group [("emd_group_type", .int 1)]
        [("data", .dset [1] [7] [])])])]

/-- Claim C5 (code bug): on an occupied label, `overwrite=False` reports
the already-exists error and leaves the store byte-for-byte unchanged and
the old group readable — that half of the claim holds.  With
`overwrite=True` the old group is deleted and creation starts, but the
dim loop's broken `write_dim` call aborts it: the call returns `None` and
the replacement group has no `dim1` vector and cannot be read back, so the
first group's contents are not fully replaced as claimed. -/
theorem put_overwrite_broken :
    put_emdgroup occupiedRoot "x" ⟨[1], [7]⟩ [⟨[0], "dim1", "unit1"⟩]
        none false = (occupiedRoot, .failed) ∧
    get_emdgroup_at .v02 occupiedRoot ["data", "x"] =
      some (.ok ⟨[1], [5]⟩ [⟨[0], "dim1", "unit1"⟩]) ∧
    put_emdgroup occupiedRoot "x" ⟨[1], [7]⟩ [⟨[0], "dim1", "unit1"⟩]
        none true = (overwrittenRoot, .failed) ∧
    lookupPath overwrittenRoot ["data", "x", "dim1"] = none ∧
    get_emdgroup_at .v02 overwrittenRoot ["data", "x"] =
      some (.contentError "/data/x") :=
  ⟨rfl, rfl, rfl, rfl, rfl⟩

end EMD
